import Mathlib

/-!
Verification of the `RawFile` unified file-handle abstraction from
`src/pack/file.rs` of the `backpack` repository.

`RawFile` is a tagged union with a disk-backed variant (a named OS file) and a
memory-backed variant (an `InMemoryFile`).  The shallow embedding below models:

* OS paths as byte lists and Rust's `Path::to_string_lossy` as a lossy UTF-8
  decoder (`toStringLossy`), following the documented semantics of
  `String::from_utf8_lossy` (valid sequences decode exactly, each maximal
  invalid subpart becomes U+FFFD);
* an idealized OS file (`DiskFile`) as a byte list with a cursor, plus a
  `broken` fault flag so that underlying-I/O failure is representable;
* the `InMemoryFile` collaborator, whose source is not part of this core
  (only `file.rs` is); it is modelled from the spec (see the doc comments);
* the `RawFile` operations, translated match-for-match from `file.rs`.

Bytes are `Nat` (values < 256 in any real run; the operations never depend on
the bound).  Fallible operations return `Except`.
-/

/-- UTF-8 encoding of a single Unicode scalar value (as a `Nat`), the standard
1-to-4-byte encoding used by Rust `str`/`String`. -/
def utf8EncodeChar (n : Nat) : List Nat :=
  if n < 0x80 then [n]
  else if n < 0x800 then [0xC0 + n / 0x40, 0x80 + n % 0x40]
  else if n < 0x10000 then
    [0xE0 + n / 0x1000, 0x80 + (n / 0x40) % 0x40, 0x80 + n % 0x40]
  else
    [0xF0 + n / 0x40000, 0x80 + (n / 0x1000) % 0x40, 0x80 + (n / 0x40) % 0x40,
      0x80 + n % 0x40]

/-- UTF-8 encoding of a Lean `String`, byte list of its characters' encodings.
This is the byte content of a Rust `&str`/`String` holding the same text. -/
def utf8EncodeStr (s : String) : List Nat :=
  (s.data.map (fun c => utf8EncodeChar c.toNat)).flatten

/-- Byte-range test used by the decoder: position `i` of `l` exists and holds
a byte in `[lo, hi)`. -/
def byteAt (l : List Nat) (i lo hi : Nat) : Prop :=
  i < l.length ∧ lo ≤ l.getD i 0 ∧ l.getD i 0 < hi

instance (l : List Nat) (i lo hi : Nat) : Decidable (byteAt l i lo hi) := by
  unfold byteAt; infer_instance

/-- Lossy UTF-8 decoding to a list of Unicode scalar values, following Rust's
`String::from_utf8_lossy`: well-formed sequences decode to their scalar value,
where the admissible range of the first continuation byte depends on the
leading byte (the standard overlong / surrogate / out-of-range exclusions);
each maximal invalid subpart yields one U+FFFD, and decoding resumes at the
first byte not belonging to it. -/
def utf8DecodeLossy : List Nat → List Nat
  | [] => []
  | b0 :: rest =>
    if b0 < 0x80 then b0 :: utf8DecodeLossy rest
    else if b0 < 0xC2 then 0xFFFD :: utf8DecodeLossy rest
    else if b0 < 0xE0 then
      if byteAt rest 0 0x80 0xC0 then
        ((b0 - 0xC0) * 0x40 + (rest.getD 0 0 - 0x80)) ::
          utf8DecodeLossy (rest.drop 1)
      else 0xFFFD :: utf8DecodeLossy rest
    else if b0 < 0xF0 then
      if byteAt rest 0 (if b0 = 0xE0 then 0xA0 else 0x80)
          (if b0 = 0xED then 0xA0 else 0xC0) then
        if byteAt rest 1 0x80 0xC0 then
          ((b0 - 0xE0) * 0x1000 + (rest.getD 0 0 - 0x80) * 0x40 +
              (rest.getD 1 0 - 0x80)) :: utf8DecodeLossy (rest.drop 2)
        else 0xFFFD :: utf8DecodeLossy (rest.drop 1)
      else 0xFFFD :: utf8DecodeLossy rest
    else if b0 < 0xF5 then
      if byteAt rest 0 (if b0 = 0xF0 then 0x90 else 0x80)
          (if b0 = 0xF4 then 0x90 else 0xC0) then
        if byteAt rest 1 0x80 0xC0 then
          if byteAt rest 2 0x80 0xC0 then
            ((b0 - 0xF0) * 0x40000 + (rest.getD 0 0 - 0x80) * 0x1000 +
                (rest.getD 1 0 - 0x80) * 0x40 + (rest.getD 2 0 - 0x80)) ::
              utf8DecodeLossy (rest.drop 3)
          else 0xFFFD :: utf8DecodeLossy (rest.drop 2)
        else 0xFFFD :: utf8DecodeLossy (rest.drop 1)
      else 0xFFFD :: utf8DecodeLossy rest
    else 0xFFFD :: utf8DecodeLossy rest
termination_by l => l.length
decreasing_by all_goals (simp [List.length_drop]; try omega)

/-- Rust's `Path::to_string_lossy` on a Unix path (a byte list): lossy UTF-8
decoding packaged as a Lean `String`.  Every scalar produced by
`utf8DecodeLossy` is a valid `Char` (`Char.ofNat` is exact on them). -/
def toStringLossy (p : List Nat) : String :=
  ⟨(utf8DecodeLossy p).map Char.ofNat⟩

/-- An abstract underlying-I/O failure (`std::io::Error`); the model does not
distinguish error kinds. -/
inductive IoErr where
  | fault
deriving DecidableEq, Repr

/-- Modelled from the spec: the crate error type (`pack/error.rs` is not part
of this core).  The spec's taxonomy lists `IoError` wrapping the underlying OS
error; `into_memory`'s failure carries the handle itself, not an error value,
so no further case is needed here. -/
inductive PackError where
  | IoError (e : IoErr)
deriving DecidableEq, Repr

/-- Rust's `std::io::SeekFrom`. -/
inductive SeekFrom where
  | Start (n : Nat)
  | Current (i : Int)
  | End (i : Int)
deriving DecidableEq, Repr

/-- A byte buffer with a cursor: the state of a Rust `Cursor<Vec<u8>>`. -/
structure CursorData where
  data : List Nat
  pos : Nat
deriving DecidableEq, Repr

/-- Writing `buf` at position `pos` into `data`, zero-filling any gap between
the end of `data` and `pos` (the documented behavior of `Cursor<Vec<u8>>`
writes and of OS-file writes after a seek past end-of-file). -/
def spliceAt (data : List Nat) (pos : Nat) (buf : List Nat) : List Nat :=
  let d := data ++ List.replicate (pos - data.length) 0
  d.take pos ++ buf ++ d.drop (pos + buf.length)

/-- Modelled from the spec: the `InMemoryFile` collaborator lives in
`pack/in_memory.rs`, which is not part of this core (`src/` holds only
`file.rs`).  Per the spec it is an in-memory byte buffer with an explicit
cursor, "optionally carrying a logical name"; `file.rs` constructs its
`Named` variant with a `Cursor<Vec<u8>>` payload, and its anonymous form via
`From<Vec<u8>>`. -/
inductive InMemoryFile where
  | Named (name : String) (data : CursorData)
  | Anon (data : CursorData)
deriving DecidableEq, Repr

/-- The cursor-and-buffer payload of an in-memory file, whichever variant. -/
def InMemoryFile.cur : InMemoryFile → CursorData
  | .Named _ c => c
  | .Anon c => c

/-- Rebuild an in-memory file with the same name (or anonymity) and a new
cursor payload. -/
def InMemoryFile.withCur : InMemoryFile → CursorData → InMemoryFile
  | .Named n _, c => .Named n c
  | .Anon _, c => .Anon c

/-- Modelled from the spec: `InMemoryFile::new(name)` — "explicitly
constructing an empty named in-memory file"; the name argument is a path,
stored via its lossy string form. -/
def InMemoryFile.new (p : List Nat) : InMemoryFile :=
  .Named (toStringLossy p) ⟨[], 0⟩

/-- Modelled from the spec: `From<Vec<u8>> for InMemoryFile` — "wrapping raw
bytes ... as an in-memory file", anonymous, cursor at 0. -/
def InMemoryFile.ofBytes (v : List Nat) : InMemoryFile :=
  .Anon ⟨v, 0⟩

/-- Modelled from the spec: the collaborator's rename operation — replaces the
logical name, leaving buffer and cursor untouched. -/
def InMemoryFile.with_name (f : InMemoryFile) (p : List Nat) : InMemoryFile :=
  .Named (toStringLossy p) f.cur

/-- Modelled from the spec: the collaborator's current-offset query (direct
read of the cursor, infallible). -/
def InMemoryFile.current_offset (f : InMemoryFile) : Nat :=
  f.cur.pos

/-- Modelled from the spec: the collaborator's optional logical name. -/
def InMemoryFile.name : InMemoryFile → Option String
  | .Named n _ => some n
  | .Anon _ => none

/-- Modelled from the spec: `Read` on the in-memory file (`Cursor<Vec<u8>>`
semantics): returns up to `n` bytes from the cursor, advancing it by the
number of bytes actually read; never fails. -/
def InMemoryFile.read (f : InMemoryFile) (n : Nat) :
    Except IoErr (List Nat × InMemoryFile) :=
  let c := f.cur
  let bs := (c.data.drop c.pos).take n
  .ok (bs, f.withCur ⟨c.data, c.pos + bs.length⟩)

/-- Modelled from the spec: reading the in-memory file to its end
(`Cursor<Vec<u8>>` semantics): everything from the cursor onward; the cursor
ends at the end of the buffer. -/
def InMemoryFile.read_to_end (f : InMemoryFile) :
    Except IoErr (List Nat × InMemoryFile) :=
  let c := f.cur
  .ok (c.data.drop c.pos, f.withCur ⟨c.data, max c.pos c.data.length⟩)

/-- Modelled from the spec: `Write` on the in-memory file (`Cursor<Vec<u8>>`
semantics): writes at the cursor, extending the buffer and zero-filling any
gap, advancing the cursor; never fails under normal operation. -/
def InMemoryFile.write (f : InMemoryFile) (buf : List Nat) :
    Except IoErr (Nat × InMemoryFile) :=
  let c := f.cur
  .ok (buf.length, f.withCur ⟨spliceAt c.data c.pos buf, c.pos + buf.length⟩)

/-- Modelled from the spec: `flush` on the in-memory file is a no-op (data is
already resident). -/
def InMemoryFile.flush (f : InMemoryFile) : Except IoErr (Unit × InMemoryFile) :=
  .ok ((), f)

/-- Modelled from the spec: `Seek` on the in-memory file: absolute, relative,
or end-relative repositioning; a negative resulting position is an error. -/
def InMemoryFile.seek (f : InMemoryFile) (p : SeekFrom) :
    Except IoErr (Nat × InMemoryFile) :=
  let c := f.cur
  let t : Int :=
    match p with
    | .Start n => (n : Int)
    | .Current i => (c.pos : Int) + i
    | .End i => (c.data.length : Int) + i
  if t < 0 then .error .fault
  else .ok (t.toNat, f.withCur ⟨c.data, t.toNat⟩)

/-- An idealized OS file (`std::fs::File` on its open descriptor): the byte
content on disk plus the descriptor's cursor.  `broken` models an
underlying-device fault, so that OS-level I/O failure is representable; a
freshly created file has `broken := false`. -/
structure DiskFile where
  data : List Nat
  pos : Nat
  broken : Bool
deriving DecidableEq, Repr

/-- OS read: up to `n` bytes from the cursor, advancing it; fails iff the
device is broken. -/
def DiskFile.read (f : DiskFile) (n : Nat) : Except IoErr (List Nat × DiskFile) :=
  if f.broken then .error .fault
  else
    let bs := (f.data.drop f.pos).take n
    .ok (bs, { f with pos := f.pos + bs.length })

/-- Rust's `Read::read_to_end` on an OS file: all bytes from the cursor to
end-of-file (none if the cursor is at or past it), leaving the cursor at
end-of-file; fails iff the device is broken. -/
def DiskFile.read_to_end (f : DiskFile) : Except IoErr (List Nat × DiskFile) :=
  if f.broken then .error .fault
  else .ok (f.data.drop f.pos, { f with pos := max f.pos f.data.length })

/-- OS write at the cursor, overwriting and extending (zero-filling a gap left
by a seek past end-of-file), advancing the cursor; fails iff the device is
broken. -/
def DiskFile.write (f : DiskFile) (buf : List Nat) :
    Except IoErr (Nat × DiskFile) :=
  if f.broken then .error .fault
  else .ok (buf.length,
    { f with data := spliceAt f.data f.pos buf, pos := f.pos + buf.length })

/-- `Write::flush` on `std::fs::File` performs no buffering work and returns
`Ok(())`. -/
def DiskFile.flush (f : DiskFile) : Except IoErr (Unit × DiskFile) :=
  .ok ((), f)

/-- OS seek: absolute, cursor-relative, or end-relative; a negative resulting
position is an error; seeking past end-of-file is allowed.  Fails iff the
device is broken. -/
def DiskFile.seek (f : DiskFile) (p : SeekFrom) : Except IoErr (Nat × DiskFile) :=
  if f.broken then .error .fault
  else
    let t : Int :=
      match p with
      | .Start n => (n : Int)
      | .Current i => (f.pos : Int) + i
      | .End i => (f.data.length : Int) + i
    if t < 0 then .error .fault
    else .ok (t.toNat, { f with pos := t.toNat })

/-- OS `sync_all` / `sync_data` (fsync/fdatasync): forces data to stable
storage; fails iff the device is broken; no observable state change in this
model. -/
def DiskFile.sync (f : DiskFile) : Except IoErr Unit :=
  if f.broken then .error .fault else .ok ()

/-- The slice of OS metadata (`std::fs::Metadata`) this model observes: the
file's length in bytes. -/
structure FileMetadata where
  len : Nat
deriving DecidableEq, Repr

/-- OS metadata query on an open file; fails iff the device is broken. -/
def DiskFile.metadata (f : DiskFile) : Except IoErr FileMetadata :=
  if f.broken then .error .fault else .ok ⟨f.data.length⟩

/-- The `RawFile` tagged union from `file.rs`: a memory-backed handle around
an `InMemoryFile`, or a disk-backed handle with an optional logical name and
an open OS file.  The `PhantomData` lifetime markers of the Rust type are
zero-sized and dropped. -/
inductive RawFile where
  | InMemory (f : InMemoryFile)
  | Disk (name : Option String) (file : DiskFile)
deriving DecidableEq, Repr

/-- `RawFile::into_memory`: the memory variant yields its `InMemoryFile`; the
disk variant is returned whole as the error value. -/
def RawFile.into_memory : RawFile → Except RawFile InMemoryFile
  | .InMemory f => .ok f
  | f@(.Disk _ _) => .error f

/-- `RawFile::convert_into_memory`: the memory variant yields its
`InMemoryFile`; the disk variant reads to end-of-file (propagating any I/O
error) and wraps the bytes as `InMemoryFile::Named` under the handle's name
if one was set, or anonymously via `From<Vec<u8>>` otherwise. -/
def RawFile.convert_into_memory : RawFile → Except PackError InMemoryFile
  | .InMemory f => .ok f
  | .Disk name file =>
    match file.read_to_end with
    | .error e => .error (.IoError e)
    | .ok (data, _) =>
      .ok (match name with
        | some n => .Named n ⟨data, 0⟩
        | none => InMemoryFile.ofBytes data)

/-- `RawFile::with_name`: the memory variant delegates to the collaborator's
rename; the disk variant keeps its file and stores the path's lossy string
form as the new name. -/
def RawFile.with_name (f : RawFile) (p : List Nat) : RawFile :=
  match f with
  | .InMemory m => .InMemory (m.with_name p)
  | .Disk _ file => .Disk (some (toStringLossy p)) file

/-- `RawFile::in_memory`: an empty named memory-backed handle. -/
def RawFile.in_memory (p : List Nat) : RawFile :=
  .InMemory (InMemoryFile.new p)

/-- `RawFile::create`: creates (or truncates) a disk file; the handle's name
is the path's lossy string form.  The idealized filesystem accepts every
create, yielding an empty, unbroken file. -/
def RawFile.create (p : List Nat) : Except PackError RawFile :=
  .ok (.Disk (some (toStringLossy p)) ⟨[], 0, false⟩)

/-- `RawFile::open`: opens an existing disk file; the idealized filesystem is
a partial map from paths to contents, and a missing path is an `IoError`.  On
success the handle's name is the path's lossy string form and the cursor is at
0. -/
def RawFile.open (fs : List Nat → Option (List Nat)) (p : List Nat) :
    Except PackError RawFile :=
  match fs p with
  | none => .error (.IoError .fault)
  | some d => .ok (.Disk (some (toStringLossy p)) ⟨d, 0, false⟩)

/-- `RawFile::current_offset`: disk dispatches to a zero-length relative seek
(mapping the I/O error into the crate error); memory reads the collaborator's
cursor directly.  The resulting handle state is returned alongside. -/
def RawFile.current_offset : RawFile → Except PackError (Nat × RawFile)
  | .Disk n file =>
    match file.seek (.Current 0) with
    | .error e => .error (.IoError e)
    | .ok (o, file') => .ok (o, .Disk n file')
  | f@(.InMemory m) => .ok (m.current_offset, f)

/-- `RawFile::sync_all`: disk dispatches to the OS sync; memory returns `Ok`.
Takes the handle by shared reference, so the state is unchanged by typing; the
model returns it explicitly so frame claims are statable. -/
def RawFile.sync_all (f : RawFile) : Except PackError (Unit × RawFile) :=
  match f with
  | .Disk _ file =>
    match file.sync with
    | .error e => .error (.IoError e)
    | .ok _ => .ok ((), f)
  | .InMemory _ => .ok ((), f)

/-- `RawFile::sync_data`: memory returns `Ok`; disk dispatches to the OS
data-only sync (identical to `sync_all` in this model's observation). -/
def RawFile.sync_data (f : RawFile) : Except PackError (Unit × RawFile) :=
  match f with
  | .InMemory _ => .ok ((), f)
  | .Disk _ file =>
    match file.sync with
    | .error e => .error (.IoError e)
    | .ok _ => .ok ((), f)

/-- The observable outcome of `RawFile::metadata`: the memory arm of the
source is `todo!()`, i.e. an unconditional panic, which the embedding records
as a distinct outcome rather than an error value. -/
inductive MetaOutcome where
  | panicked
  | ok (m : FileMetadata)
  | err (e : PackError)
deriving DecidableEq, Repr

/-- `RawFile::metadata`: memory panics (`todo!()` in the source); disk
dispatches to the OS metadata query, mapping its error into the crate
error. -/
def RawFile.metadata : RawFile → MetaOutcome
  | .InMemory _ => .panicked
  | .Disk _ file =>
    match file.metadata with
    | .error e => .err (.IoError e)
    | .ok m => .ok m

/-- `RawFile::name`: memory delegates to the collaborator; disk returns its
stored optional name. -/
def RawFile.name : RawFile → Option String
  | .InMemory m => m.name
  | .Disk n _ => n

/-- `Write::write` for `RawFile`: dispatch to the active variant. -/
def RawFile.write (f : RawFile) (buf : List Nat) : Except IoErr (Nat × RawFile) :=
  match f with
  | .Disk n file =>
    match file.write buf with
    | .error e => .error e
    | .ok (k, file') => .ok (k, .Disk n file')
  | .InMemory m =>
    match m.write buf with
    | .error e => .error e
    | .ok (k, m') => .ok (k, .InMemory m')

/-- `Write::flush` for `RawFile`: dispatch to the active variant. -/
def RawFile.flush (f : RawFile) : Except IoErr (Unit × RawFile) :=
  match f with
  | .Disk n file =>
    match file.flush with
    | .error e => .error e
    | .ok (_, file') => .ok ((), .Disk n file')
  | .InMemory m =>
    match m.flush with
    | .error e => .error e
    | .ok (_, m') => .ok ((), .InMemory m')

/-- `Read::read` for `RawFile`: dispatch to the active variant; `n` is the
caller's buffer size. -/
def RawFile.read (f : RawFile) (n : Nat) : Except IoErr (List Nat × RawFile) :=
  match f with
  | .Disk nm file =>
    match file.read n with
    | .error e => .error e
    | .ok (bs, file') => .ok (bs, .Disk nm file')
  | .InMemory m =>
    match m.read n with
    | .error e => .error e
    | .ok (bs, m') => .ok (bs, .InMemory m')

/-- `Seek::seek` for `RawFile`: dispatch to the active variant. -/
def RawFile.seek (f : RawFile) (p : SeekFrom) : Except IoErr (Nat × RawFile) :=
  match f with
  | .Disk n file =>
    match file.seek p with
    | .error e => .error e
    | .ok (o, file') => .ok (o, .Disk n file')
  | .InMemory m =>
    match m.seek p with
    | .error e => .error e
    | .ok (o, m') => .ok (o, .InMemory m')

/-- Observer: is the handle disk-backed? -/
def RawFile.variantIsDisk : RawFile → Bool
  | .Disk _ _ => true
  | .InMemory _ => false

/-- Observer: the backing store's byte content, whichever variant. -/
def RawFile.contents : RawFile → List Nat
  | .Disk _ file => file.data
  | .InMemory m => m.cur.data

/-- Observer: the backing store's cursor, whichever variant. -/
def RawFile.offset : RawFile → Nat
  | .Disk _ file => file.pos
  | .InMemory m => m.cur.pos

/-- Observer: the disk fault flag (false for the memory variant, which has no
device to fail). -/
def RawFile.isBroken : RawFile → Bool
  | .Disk _ file => file.broken
  | .InMemory _ => false

/-- The write/flush/seek/convert round-trip of the spec's testable property:
create a fresh disk handle at path `p`, write `B`, flush, seek to absolute
offset 0, materialize into memory, and read the memory handle to its end. -/
def writeConvertRoundTrip (p B : List Nat) : Except PackError (List Nat) :=
  match RawFile.create p with
  | .error e => .error e
  | .ok h =>
    match h.write B with
    | .error e => .error (.IoError e)
    | .ok (_, h) =>
      match h.flush with
      | .error e => .error (.IoError e)
      | .ok (_, h) =>
        match h.seek (.Start 0) with
        | .error e => .error (.IoError e)
        | .ok (_, h) =>
          match h.convert_into_memory with
          | .error e => .error e
          | .ok m =>
            match m.read_to_end with
            | .error e => .error (.IoError e)
            | .ok (bs, _) => .ok bs

/-! Helper lemmas: lossy UTF-8 decoding is exact on encoded text. -/

/-- Decoding an encoded ASCII scalar recovers it and continues. -/
theorem utf8_dec_ascii (n : Nat) (h2 : n < 0x80) (rest : List Nat) :
    utf8DecodeLossy (utf8EncodeChar n ++ rest) = n :: utf8DecodeLossy rest := by
  have e : utf8EncodeChar n = [n] := by
    unfold utf8EncodeChar; rw [if_pos (by omega)]
  rw [e]
  simp only [List.cons_append, List.nil_append]
  rw [utf8DecodeLossy]
  rw [if_pos (by omega)]

set_option maxRecDepth 4000 in
/-- Decoding an encoded two-byte scalar recovers it and continues. -/
theorem utf8_dec_two (n : Nat) (h1 : 0x80 ≤ n) (h2 : n < 0x800) (rest : List Nat) :
    utf8DecodeLossy (utf8EncodeChar n ++ rest) = n :: utf8DecodeLossy rest := by
  have e : utf8EncodeChar n = [0xC0 + n / 0x40, 0x80 + n % 0x40] := by
    unfold utf8EncodeChar; rw [if_neg (by omega), if_pos (by omega)]
  rw [e]
  simp only [List.cons_append, List.nil_append]
  rw [utf8DecodeLossy]
  rw [if_neg (by omega), if_neg (by omega), if_pos (by omega),
    if_pos (by simp [byteAt]; omega)]
  simp only [List.getD_cons_zero, List.drop_succ_cons, List.drop_zero]
  congr 1
  omega

set_option maxRecDepth 4000 in
/-- Decoding an encoded three-byte scalar (no surrogates) recovers it and
continues. -/
theorem utf8_dec_three (n : Nat) (h1 : 0x800 ≤ n) (h2 : n < 0x10000)
    (hv : n < 0xD800 ∨ 0xDFFF < n) (rest : List Nat) :
    utf8DecodeLossy (utf8EncodeChar n ++ rest) = n :: utf8DecodeLossy rest := by
  have e : utf8EncodeChar n =
      [0xE0 + n / 0x1000, 0x80 + (n / 0x40) % 0x40, 0x80 + n % 0x40] := by
    unfold utf8EncodeChar; rw [if_neg (by omega), if_neg (by omega), if_pos (by omega)]
  rw [e]
  simp only [List.cons_append, List.nil_append]
  have hb1 : byteAt ((0x80 + (n / 0x40) % 0x40) :: (0x80 + n % 0x40) :: rest) 0
      (if (0xE0 + n / 0x1000) = 0xE0 then 0xA0 else 0x80)
      (if (0xE0 + n / 0x1000) = 0xED then 0xA0 else 0xC0) := by
    refine ⟨by simp, ?_, ?_⟩
    · simp only [List.getD_cons_zero]
      split <;> omega
    · simp only [List.getD_cons_zero]
      split <;> omega
  rw [utf8DecodeLossy]
  rw [if_neg (by omega), if_neg (by omega), if_neg (by omega), if_pos (by omega),
    if_pos hb1, if_pos (by refine ⟨by simp, ?_, ?_⟩ <;> simp <;> omega)]
  simp only [List.getD_cons_zero, List.getD_cons_succ, List.drop_succ_cons,
    List.drop_zero]
  congr 1
  omega

set_option maxRecDepth 4000 in
/-- Decoding an encoded four-byte scalar recovers it and continues. -/
theorem utf8_dec_four (n : Nat) (h1 : 0x10000 ≤ n) (h2 : n < 0x110000)
    (rest : List Nat) :
    utf8DecodeLossy (utf8EncodeChar n ++ rest) = n :: utf8DecodeLossy rest := by
  have e : utf8EncodeChar n = [0xF0 + n / 0x40000, 0x80 + (n / 0x1000) % 0x40,
      0x80 + (n / 0x40) % 0x40, 0x80 + n % 0x40] := by
    unfold utf8EncodeChar; rw [if_neg (by omega), if_neg (by omega), if_neg (by omega)]
  rw [e]
  simp only [List.cons_append, List.nil_append]
  have hb1 : byteAt ((0x80 + (n / 0x1000) % 0x40) :: (0x80 + (n / 0x40) % 0x40) ::
      (0x80 + n % 0x40) :: rest) 0
      (if (0xF0 + n / 0x40000) = 0xF0 then 0x90 else 0x80)
      (if (0xF0 + n / 0x40000) = 0xF4 then 0x90 else 0xC0) := by
    refine ⟨by simp, ?_, ?_⟩
    · simp only [List.getD_cons_zero]
      split <;> omega
    · simp only [List.getD_cons_zero]
      split <;> omega
  rw [utf8DecodeLossy]
  rw [if_neg (by omega), if_neg (by omega), if_neg (by omega), if_neg (by omega),
    if_pos (by omega), if_pos hb1,
    if_pos (by refine ⟨by simp, ?_, ?_⟩ <;> simp <;> omega),
    if_pos (by refine ⟨by simp, ?_, ?_⟩ <;> simp <;> omega)]
  simp only [List.getD_cons_zero, List.getD_cons_succ, List.drop_succ_cons,
    List.drop_zero]
  congr 1
  omega

/-- Decoding an encoded valid Unicode scalar recovers it and continues. -/
theorem utf8_dec_char (n : Nat) (hv : n.isValidChar) (rest : List Nat) :
    utf8DecodeLossy (utf8EncodeChar n ++ rest) = n :: utf8DecodeLossy rest := by
  rcases hv with h | ⟨h1, h2⟩
  · rcases Nat.lt_or_ge n 0x80 with h0 | h0
    · exact utf8_dec_ascii n h0 rest
    · rcases Nat.lt_or_ge n 0x800 with h8 | h8
      · exact utf8_dec_two n h0 h8 rest
      · exact utf8_dec_three n h8 (by omega) (Or.inl h) rest
  · rcases Nat.lt_or_ge n 0x10000 with hs | hs
    · exact utf8_dec_three n (by omega) hs (Or.inr h1) rest
    · exact utf8_dec_four n hs h2 rest

/-- Decoding an encoded list of valid Unicode scalars recovers it. -/
theorem utf8_dec_list (cs : List Nat) (h : ∀ c ∈ cs, c.isValidChar) :
    utf8DecodeLossy (cs.map utf8EncodeChar).flatten = cs := by
  induction cs with
  | nil => rw [List.map_nil, List.flatten_nil, utf8DecodeLossy]
  | cons c cs ih =>
    rw [List.map_cons, List.flatten_cons, utf8_dec_char c (h c (by simp)),
      ih (fun x hx => h x (by simp [hx]))]

/-- Lossy decoding is exact on the UTF-8 encoding of a string: `to_string_lossy`
of a valid-UTF-8 path returns exactly its string form. -/
theorem toStringLossy_encode (s : String) : toStringLossy (utf8EncodeStr s) = s := by
  show toStringLossy ((s.data.map (fun c => utf8EncodeChar c.toNat)).flatten) = s
  have e : s.data.map (fun c => utf8EncodeChar c.toNat)
      = (s.data.map Char.toNat).map utf8EncodeChar := by
    rw [List.map_map]; rfl
  rw [e]
  show String.mk _ = s
  rw [utf8_dec_list _ (fun c hc => ?_)]
  · obtain ⟨d⟩ := s
    congr 1
    simp [Function.comp_def, Char.ofNat_toNat]
  · obtain ⟨x, hx, rfl⟩ := List.mem_map.mp hc
    exact x.valid

/-- A zero-length relative OS seek returns the current cursor and leaves the
file unchanged (or fails on a broken device). -/
theorem diskFile_seek_current_zero (data : List Nat) (pos : Nat) (b : Bool) :
    DiskFile.seek ⟨data, pos, b⟩ (.Current 0) =
      if b then .error .fault else .ok (pos, ⟨data, pos, b⟩) := by
  cases b
  · simp only [DiskFile.seek]
    rw [if_neg (by simp), if_neg (by omega)]
    simp
  · rfl

/-! Claim theorems. -/

/-- C1: `into_memory()` on a disk-backed handle fails and returns the original
handle unchanged (same variant, name and file state — the very same value, so
no partial conversion), and on a memory-backed handle succeeds and returns the
contained in-memory file unchanged. -/
theorem into_memory_disk_fails_memory_ok (n : Option String) (d : DiskFile)
    (m : InMemoryFile) :
    (RawFile.Disk n d).into_memory = .error (RawFile.Disk n d)
  ∧ (RawFile.InMemory m).into_memory = .ok m :=
  ⟨rfl, rfl⟩

/-- C2: the source's `metadata()` on a memory-backed handle is `todo!()` — an
unconditional panic, not a `NotSupported` error result.  This theorem
evaluates the code at the failing inputs: every memory-backed handle makes
`metadata()` panic. -/
theorem metadata_memory_panics (m : InMemoryFile) :
    (RawFile.InMemory m).metadata = .panicked :=
  rfl

/-- C3: on a disk-backed handle, `convert_into_memory()` materializes exactly
the bytes from the current offset to end-of-file into a fresh buffer, named
after the handle's name when one was set and anonymous otherwise, and fails
with `IoError` when the underlying read fails. -/
theorem convert_into_memory_disk (nm : Option String) (d : DiskFile) :
    (RawFile.Disk nm d).convert_into_memory =
      if d.broken then .error (.IoError .fault)
      else .ok (match nm with
        | some n => .Named n ⟨d.data.drop d.pos, 0⟩
        | none => .Anon ⟨d.data.drop d.pos, 0⟩) := by
  cases hb : d.broken <;>
    simp [RawFile.convert_into_memory, DiskFile.read_to_end, hb,
      InMemoryFile.ofBytes]

/-- C4: writing `B` to a freshly created disk-backed handle, flushing, seeking
to absolute offset 0, then converting into memory yields a memory handle whose
full content read back equals `B`. -/
theorem write_convert_round_trip (p B : List Nat) :
    writeConvertRoundTrip p B = .ok B := by
  simp [writeConvertRoundTrip, RawFile.create, RawFile.write, DiskFile.write,
    RawFile.flush, DiskFile.flush, RawFile.seek, DiskFile.seek,
    RawFile.convert_into_memory, DiskFile.read_to_end,
    InMemoryFile.read_to_end, InMemoryFile.cur, InMemoryFile.withCur, spliceAt]

/-- C6: on a memory-backed handle, `convert_into_memory()` succeeds and
returns the contained in-memory file itself — a no-op identity (same bytes,
same name). -/
theorem convert_into_memory_memory_identity (m : InMemoryFile) :
    (RawFile.InMemory m).convert_into_memory = .ok m :=
  rfl

/-- C8: `sync_all()` and `sync_data()` on a memory-backed handle always
succeed and are no-ops: the returned handle is the original, so variant, name,
content, and cursor offset are unchanged. -/
theorem sync_memory_noop (m : InMemoryFile) :
    (RawFile.InMemory m).sync_all = .ok ((), .InMemory m)
  ∧ (RawFile.InMemory m).sync_data = .ok ((), .InMemory m) :=
  ⟨rfl, rfl⟩

/-- C5: `with_name` with (the path form of) any name string `n`, on either
variant, yields a handle whose `name()` is exactly `n`, with variant, byte
content, cursor offset, and device state all unchanged — so read/write/seek
behavior is unchanged. -/
theorem with_name_sets_name_frame (f : RawFile) (s : String) :
    (f.with_name (utf8EncodeStr s)).name = some s
  ∧ (f.with_name (utf8EncodeStr s)).variantIsDisk = f.variantIsDisk
  ∧ (f.with_name (utf8EncodeStr s)).contents = f.contents
  ∧ (f.with_name (utf8EncodeStr s)).offset = f.offset
  ∧ (f.with_name (utf8EncodeStr s)).isBroken = f.isBroken := by
  cases f <;>
    simp [RawFile.with_name, RawFile.name, RawFile.variantIsDisk,
      RawFile.contents, RawFile.offset, RawFile.isBroken,
      InMemoryFile.with_name, InMemoryFile.name, InMemoryFile.cur,
      toStringLossy_encode]

/-- C7: a successful `current_offset()` returns the handle unchanged (it is
side-effect-free, so subsequent reads are unaffected), and calling it again
returns the same offset. -/
theorem current_offset_idempotent (f f' : RawFile) (o : Nat)
    (h : f.current_offset = .ok (o, f')) :
    f' = f ∧ f'.current_offset = .ok (o, f') := by
  cases f with
  | InMemory m =>
    simp only [RawFile.current_offset, Except.ok.injEq, Prod.mk.injEq] at h
    obtain ⟨rfl, rfl⟩ := h
    exact ⟨rfl, rfl⟩
  | Disk nm d =>
    obtain ⟨data, pos, b⟩ := d
    rw [show (RawFile.Disk nm ⟨data, pos, b⟩).current_offset =
        (match DiskFile.seek ⟨data, pos, b⟩ (.Current 0) with
          | .error e => .error (.IoError e)
          | .ok (o, file') => .ok (o, .Disk nm file')) from rfl,
      diskFile_seek_current_zero] at h
    cases b
    · simp only [Bool.false_eq_true, if_false, Except.ok.injEq,
        Prod.mk.injEq] at h
      obtain ⟨rfl, rfl⟩ := h
      refine ⟨rfl, ?_⟩
      rw [show (RawFile.Disk nm ⟨data, pos, false⟩).current_offset =
          (match DiskFile.seek ⟨data, pos, false⟩ (.Current 0) with
            | .error e => .error (.IoError e)
            | .ok (o, file') => .ok (o, .Disk nm file')) from rfl,
        diskFile_seek_current_zero]
      simp
    · simp at h

/-- C7 witness: a concrete memory-backed handle on which `current_offset()`
succeeds, is state-preserving, and repeats the same value. -/
theorem current_offset_idempotent_witness :
    RawFile.InMemory (.Anon ⟨[3], 1⟩) = RawFile.InMemory (.Anon ⟨[3], 1⟩)
  ∧ (RawFile.InMemory (.Anon ⟨[3], 1⟩)).current_offset
      = .ok (1, RawFile.InMemory (.Anon ⟨[3], 1⟩)) :=
  current_offset_idempotent (RawFile.InMemory (.Anon ⟨[3], 1⟩))
    (RawFile.InMemory (.Anon ⟨[3], 1⟩)) 1 rfl

/-- C9: a successful `convert_into_memory()` on a named disk-backed handle
yields a memory file whose cursor is at offset 0, wherever the disk cursor
was. -/
theorem convert_named_disk_cursor_zero (n : String) (d : DiskFile)
    (m : InMemoryFile)
    (h : (RawFile.Disk (some n) d).convert_into_memory = .ok m) :
    m.current_offset = 0 := by
  cases hb : d.broken <;>
    simp [RawFile.convert_into_memory, DiskFile.read_to_end, hb] at h
  subst h
  rfl

/-- C9 witness: a concrete named disk handle with a nonzero cursor whose
conversion lands at memory offset 0. -/
theorem convert_named_disk_cursor_zero_witness :
    (RawFile.Disk (some "x") ⟨[1, 2], 1, false⟩).convert_into_memory
      = .ok (.Named "x" ⟨[2], 0⟩)
  ∧ (InMemoryFile.Named "x" ⟨[2], 0⟩).current_offset = 0 :=
  ⟨rfl, convert_named_disk_cursor_zero "x" ⟨[1, 2], 1, false⟩
    (.Named "x" ⟨[2], 0⟩) rfl⟩

/-- C10: the stored logical name of `open`, `create`, and `with_name` on a
disk-backed handle is the lossy UTF-8 decoding of the path argument; on a
valid-UTF-8 path (the encoding of a string `s`) it is exactly `s`, and on an
invalid path (e.g. the lone byte 0xFF) invalid sequences are replaced by
U+FFFD, so the name differs from the supplied path. -/
theorem name_is_lossy_path (p : List Nat) (s : String) (f : RawFile)
    (fs : List Nat → Option (List Nat)) :
    (∀ h, RawFile.create p = .ok h → h.name = some (toStringLossy p))
  ∧ (∀ h, RawFile.open fs p = .ok h → h.name = some (toStringLossy p))
  ∧ (f.with_name p).name = some (toStringLossy p)
  ∧ toStringLossy (utf8EncodeStr s) = s
  ∧ toStringLossy [0xFF] = "�" := by
  refine ⟨?_, ?_, ?_, toStringLossy_encode s, ?_⟩
  · intro h hc
    obtain rfl : RawFile.Disk (some (toStringLossy p)) ⟨[], 0, false⟩ = h := by
      simpa [RawFile.create] using hc
    rfl
  · intro h hc
    rcases hfs : fs p with _ | d
    · simp [RawFile.open, hfs] at hc
    · simp only [RawFile.open, hfs] at hc
      obtain rfl : RawFile.Disk (some (toStringLossy p)) ⟨d, 0, false⟩ = h := by
        simpa using hc
      rfl
  · cases f <;>
      simp [RawFile.with_name, RawFile.name, InMemoryFile.with_name,
        InMemoryFile.name]
  · show String.mk ((utf8DecodeLossy [0xFF]).map Char.ofNat) = "�"
    rw [show utf8DecodeLossy [0xFF] = [0xFFFD] from by
      simp [utf8DecodeLossy, byteAt]]
    rfl

/-- C10 witness: concrete instantiations — `create` on the byte path `[0x61]`
(the encoding of "a"), `open` of an existing path `[0x62]`, the exactness of
the lossy decoding on "a", and the replacement on the invalid path
`[0xFF]`. -/
theorem name_is_lossy_path_witness :
    (RawFile.Disk (some (toStringLossy [0x61])) ⟨[], 0, false⟩).name
      = some (toStringLossy [0x61])
  ∧ (RawFile.Disk (some (toStringLossy [0x62])) ⟨[7], 0, false⟩).name
      = some (toStringLossy [0x62])
  ∧ toStringLossy (utf8EncodeStr "a") = "a"
  ∧ toStringLossy [0xFF] = "�" :=
  ⟨(name_is_lossy_path [0x61] "a" (.InMemory (.Anon ⟨[], 0⟩))
      (fun _ => none)).1 _ rfl,
   (name_is_lossy_path [0x62] "a" (.InMemory (.Anon ⟨[], 0⟩))
      (fun _ => some [7])).2.1 _ rfl,
   (name_is_lossy_path [0x61] "a" (.InMemory (.Anon ⟨[], 0⟩))
      (fun _ => none)).2.2.2.1,
   (name_is_lossy_path [0x61] "a" (.InMemory (.Anon ⟨[], 0⟩))
      (fun _ => none)).2.2.2.2⟩
